import Mathlib

/-!
Verification of the SurrealDB connection pool (`src/database/pool.ts`).

The pool is shallowly embedded as a pure state machine.  Connections are
identified by natural-number handles (the TypeScript code identifies them by
object reference; every `new Surreal()` yields a fresh object, which we model
with a monotone counter `nextId`).  Timestamps produced by `Date.now()` are
naturals supplied explicitly by the caller of each operation.  The polling
loop of `acquire` consumes an explicit list of clock readings, one per loop
iteration: the list element is the value `Date.now()` returns at that
iteration's guard check, and an exhausted list stands for the first reading
at which the guard `Date.now() - start < timeout` fails.  The configured
timeout is an `Int` so that zero and negative configurations are expressible,
exactly as a JavaScript number would allow.

Failures of the opaque backend are supplied as oracles: `failAt` says which
connection-creation step of `initialize` throws (`none` = none throws), and
`failIds` lists the connection handles whose `close()` call throws.
-/

/-- One slot of the pool, mirroring `interface PoolConnection` of
`pool.ts`: the backend client handle, the checkout flag and the
`lastUsed` timestamp. -/
structure PoolConnection where
  client : Nat
  inUse : Bool
  lastUsed : Nat
deriving DecidableEq

/-- The mutable fields of `class SurrealDBPool`: the entry list `pool`, the
`initialized` flag, plus the model-level counter `nextId` supplying fresh
client handles (standing for fresh object references). -/
structure PoolState where
  pool : List PoolConnection
  initialized : Bool
  nextId : Nat
deriving DecidableEq

/-- The read-only configuration of `SurrealDBPool`: `maxSize` and the acquire
`timeout` (in milliseconds, as an integer so that non-positive values are
representable). -/
structure PoolConfig where
  maxSize : Nat
  timeout : Int
deriving DecidableEq

/-- The `DatabaseError` values thrown by the pool, distinguished by their
message: initialization failure, the acquire-timeout error (whose message
interpolates the configured timeout), and the close failure (wrapping the
handle whose close threw, standing for the wrapped cause). -/
inductive DBError where
  | initFailed : DBError
  | acquireTimeout (timeout : Int) : DBError
  | closeFailed (cause : Nat) : DBError
deriving DecidableEq

/-- The state of a freshly constructed pool: empty entry list, not
initialized. -/
def initialState : PoolState :=
  { pool := [], initialized := false, nextId := 0 }

/-- The entries pushed by `k` consecutive successful `createConnection` calls
starting from fresh handle `base`: each is `{ client, inUse: false,
lastUsed: Date.now() }` as in `initialize`'s loop body. -/
def mkEntries (now : Nat) : Nat → Nat → List PoolConnection
  | _, 0 => []
  | base, k + 1 =>
      { client := base, inUse := false, lastUsed := now } :: mkEntries now (base + 1) k

/-- The `for` loop of `initialize`: `i` is the loop index, the second `Nat`
argument counts the remaining iterations.  When the oracle says the
`createConnection` at index `i` throws, the loop stops with the entries
pushed so far kept in the pool (the TypeScript `try` block does not undo the
earlier `push` calls) and the Boolean result records failure. -/
def initPush (failAt : Option Nat) (now : Nat) : Nat → Nat → PoolState → PoolState × Bool
  | _, 0, s => (s, true)
  | i, k + 1, s =>
      if failAt = some i then (s, false)
      else
        initPush failAt now (i + 1) k
          { s with
            pool := s.pool ++ [{ client := s.nextId, inUse := false, lastUsed := now }],
            nextId := s.nextId + 1 }

/-- `SurrealDBPool.initialize`: immediate return when already initialized;
otherwise run the creation loop, set `initialized` on full success, and
throw `DatabaseError` (keeping the partially pushed entries and leaving the
flag untouched) when a creation fails. -/
def initPool (cfg : PoolConfig) (failAt : Option Nat) (now : Nat) (s : PoolState) :
    PoolState × Except DBError Unit :=
  if s.initialized then (s, Except.ok ())
  else
    let r := initPush failAt now 0 cfg.maxSize s
    if r.2 then ({ r.1 with initialized := true }, Except.ok ())
    else (r.1, Except.error DBError.initFailed)

/-- The mutation `available.inUse = true; available.lastUsed = Date.now()`
applied to the first free entry found by the scan (first-fit): entries before
it and after it are untouched. -/
def setFirstFree (now : Nat) : List PoolConnection → List PoolConnection
  | [] => []
  | c :: cs =>
      if c.inUse then c :: setFirstFree now cs
      else { c with inUse := true, lastUsed := now } :: cs

/-- The `while (Date.now() - start < this.timeout)` polling loop of
`acquire`.  Each list element is the `Date.now()` reading at one iteration's
guard check; when the guard passes, the pool is scanned with
`find((conn) => !conn.inUse)`, and on a hit the entry is marked and its
client returned.  An empty list stands for the reading at which the guard
fails, producing the timeout `DatabaseError`. -/
def acquireLoop (timeout : Int) (start : Nat) (s : PoolState) :
    List Nat → PoolState × Except DBError Nat
  | [] => (s, Except.error (DBError.acquireTimeout timeout))
  | now :: rest =>
      if (now : Int) - (start : Int) < timeout then
        match s.pool.find? (fun c => !c.inUse) with
        | some conn => ({ s with pool := setFirstFree now s.pool }, Except.ok conn.client)
        | none => acquireLoop timeout start s rest
      else (s, Except.error (DBError.acquireTimeout timeout))

/-- `SurrealDBPool.acquire`: lazy `initialize` when the flag is down
(propagating its error), then the polling loop. -/
def acquire (cfg : PoolConfig) (failAt : Option Nat) (initNow start : Nat)
    (times : List Nat) (s : PoolState) : PoolState × Except DBError Nat :=
  if s.initialized then acquireLoop cfg.timeout start s times
  else
    match initPool cfg failAt initNow s with
    | (s1, Except.ok _) => acquireLoop cfg.timeout start s1 times
    | (s1, Except.error e) => (s1, Except.error e)

/-- The body of `SurrealDBPool.release`: `pool.find((c) => c.client ===
client)` followed by the in-place mutation of the found entry; a miss leaves
the list untouched. -/
def releaseGo (client : Nat) (now : Nat) : List PoolConnection → List PoolConnection
  | [] => []
  | c :: cs =>
      if c.client = client then { c with inUse := false, lastUsed := now } :: cs
      else c :: releaseGo client now cs

/-- `SurrealDBPool.release`: a total function — the TypeScript body has no
`throw`, so releasing an unknown handle is a silent no-op. -/
def release (client : Nat) (now : Nat) (s : PoolState) : PoolState :=
  { s with pool := releaseGo client now s.pool }

/-- The record returned by `SurrealDBPool.getStats`. -/
structure PoolStats where
  total : Nat
  inUse : Nat
  available : Nat
deriving DecidableEq

/-- `SurrealDBPool.getStats`: a pure function of the state (the TypeScript
body only reads `this.pool`). -/
def getStats (s : PoolState) : PoolStats :=
  let inUse := (s.pool.filter (fun c => c.inUse)).length
  { total := s.pool.length, inUse := inUse, available := s.pool.length - inUse }

/-- The number of entries currently checked out. -/
def countInUse (s : PoolState) : Nat :=
  (s.pool.filter (fun c => c.inUse)).length

/-- `SurrealDBPool.withConnection`: acquire, run `fn`, and release in a
`finally` block, so the release happens before either the value or the
thrown error of `fn` propagates.  `fn`'s own errors (type `ε`) are kept
separate from the pool's `DatabaseError`s via a sum. -/
def withConnection {ε α : Type} (cfg : PoolConfig) (failAt : Option Nat)
    (initNow start relNow : Nat) (times : List Nat) (fn : Nat → Except ε α)
    (s : PoolState) : PoolState × Except (Sum DBError ε) α :=
  match acquire cfg failAt initNow start times s with
  | (s1, Except.error e) => (s1, Except.error (Sum.inl e))
  | (s1, Except.ok c) =>
      match fn c with
      | Except.ok v => (release c relNow s1, Except.ok v)
      | Except.error e => (release c relNow s1, Except.error (Sum.inr e))

/-- The `for (const conn of this.pool) await conn.client.close()` loop of
`closeAll`.  `failIds` is the oracle listing the handles whose `close()`
throws.  Returns the handles whose `close()` was actually attempted, in
order, and `none` on success or `some cause` when the loop aborted because
closing `cause` threw. -/
def closeLoop (failIds : List Nat) : List PoolConnection → List Nat × Option Nat
  | [] => ([], none)
  | c :: cs =>
      if c.client ∈ failIds then ([c.client], some c.client)
      else
        let r := closeLoop failIds cs
        (c.client :: r.1, r.2)

/-- `SurrealDBPool.closeAll`: on a clean loop, empty the pool and reset the
flag; when a close throws, the loop aborts, the resets are skipped (they sit
after the loop inside the `try`), and a `DatabaseError` wrapping the cause
is thrown.  The middle component records which handles had `close()`
attempted. -/
def closeAll (failIds : List Nat) (s : PoolState) :
    PoolState × List Nat × Except DBError Unit :=
  match (closeLoop failIds s.pool).2 with
  | none =>
      ({ s with pool := [], initialized := false }, (closeLoop failIds s.pool).1, Except.ok ())
  | some cause => (s, (closeLoop failIds s.pool).1, Except.error (DBError.closeFailed cause))

/-- One client-visible pool operation together with its environment data:
clock readings and failure oracles. -/
inductive PoolOp where
  | init (failAt : Option Nat) (now : Nat) : PoolOp
  | acq (failAt : Option Nat) (initNow start : Nat) (times : List Nat) : PoolOp
  | rel (client : Nat) (now : Nat) : PoolOp
  | close (failIds : List Nat) : PoolOp
deriving DecidableEq

/-- The state transition of one operation. -/
def step (cfg : PoolConfig) (s : PoolState) : PoolOp → PoolState
  | PoolOp.init failAt now => (initPool cfg failAt now s).1
  | PoolOp.acq failAt initNow start times => (acquire cfg failAt initNow start times s).1
  | PoolOp.rel client now => release client now s
  | PoolOp.close failIds => (closeAll failIds s).1

/-- Run a sequence of interleaved pool operations. -/
def run (cfg : PoolConfig) (s : PoolState) (ops : List PoolOp) : PoolState :=
  List.foldl (step cfg) s ops

/-- The connection handle an operation hands to its caller: `some c` exactly
when the operation is an `acquire` that returned client `c`. -/
def acqRet (cfg : PoolConfig) (s : PoolState) : PoolOp → Option Nat
  | PoolOp.acq failAt initNow start times =>
      match (acquire cfg failAt initNow start times s).2 with
      | Except.ok c => some c
      | Except.error _ => none
  | _ => none

/-- An operation whose embedded initialization oracle reports no
connection-creation failure. -/
def initOk : PoolOp → Bool
  | PoolOp.init failAt _ => failAt.isNone
  | PoolOp.acq failAt _ _ _ => failAt.isNone
  | _ => true

/-- Client `c` is not available for checkout in state `s`: it is a handle the
pool has already minted, and every entry carrying it is checked out. -/
def NotFree (c : Nat) (s : PoolState) : Prop :=
  c < s.nextId ∧ ∀ e ∈ s.pool, e.client = c → e.inUse = true

/-- Handle hygiene: every entry's handle was minted by the counter, and no
two entries share a handle. -/
def ClientsOk (s : PoolState) : Prop :=
  (∀ e ∈ s.pool, e.client < s.nextId) ∧ (s.pool.map (fun e => e.client)).Nodup

/-- The size invariant tied to a configuration: an initialized pool has
exactly `maxSize` entries, an uninitialized pool has none. -/
def CapInv (cfg : PoolConfig) (s : PoolState) : Prop :=
  (s.initialized = true → s.pool.length = cfg.maxSize) ∧
  (s.initialized = false → s.pool = [])

deriving instance DecidableEq for Except

/-- Length of a block of freshly created entries. -/
lemma mkEntries_length (now : Nat) : ∀ k base, (mkEntries now base k).length = k := by
  intro k
  induction k with
  | zero => intro base; rfl
  | succ n ih => intro base; simp [mkEntries, ih]

/-- Freshly created entries are not checked out. -/
lemma mkEntries_inUse (now : Nat) :
    ∀ k base, ∀ e ∈ mkEntries now base k, e.inUse = false := by
  intro k
  induction k with
  | zero => intro base e he; simp [mkEntries] at he
  | succ n ih =>
    intro base e he
    rcases (List.mem_cons).mp he with h | h
    · rw [h]
    · exact ih (base + 1) e h

/-- Handles of a fresh block lie in the interval it was minted from. -/
lemma mkEntries_client_bounds (now : Nat) :
    ∀ k base, ∀ e ∈ mkEntries now base k, base ≤ e.client ∧ e.client < base + k := by
  intro k
  induction k with
  | zero => intro base e he; simp [mkEntries] at he
  | succ n ih =>
    intro base e he
    rcases (List.mem_cons).mp he with h | h
    · rw [h]; constructor <;> simp
    · have := ih (base + 1) e h
      omega

/-- Handles of a fresh block are pairwise distinct. -/
lemma mkEntries_nodup (now : Nat) :
    ∀ k base, ((mkEntries now base k).map (fun e => e.client)).Nodup := by
  intro k
  induction k with
  | zero => intro base; simp [mkEntries]
  | succ n ih =>
    intro base
    simp only [mkEntries, List.map_cons, List.nodup_cons]
    refine ⟨?_, ih (base + 1)⟩
    intro hmem
    rcases List.mem_map.mp hmem with ⟨e, he, hec⟩
    have := mkEntries_client_bounds now n (base + 1) e he
    omega

/-- The creation loop appends some block of `m ≤ k` fresh entries and bumps
the counter by `m`; it created all `k` exactly when it reports success. -/
lemma initPush_fst (failAt : Option Nat) (now : Nat) :
    ∀ k i s, ∃ m, m ≤ k ∧
      (initPush failAt now i k s).1 =
        { s with pool := s.pool ++ mkEntries now s.nextId m, nextId := s.nextId + m } ∧
      ((initPush failAt now i k s).2 = true → m = k) := by
  intro k
  induction k with
  | zero =>
    intro i s
    refine ⟨0, Nat.le_refl 0, ?_, fun _ => rfl⟩
    cases s
    simp [initPush, mkEntries]
  | succ n ih =>
    intro i s
    by_cases h : failAt = some i
    · refine ⟨0, Nat.zero_le _, ?_, ?_⟩
      · cases s
        simp [initPush, h, mkEntries]
      · intro hs
        simp [initPush, h] at hs
    · obtain ⟨m, hm, hfst, hsnd⟩ :=
        ih (i + 1)
          { s with
            pool := s.pool ++ [{ client := s.nextId, inUse := false, lastUsed := now }],
            nextId := s.nextId + 1 }
      refine ⟨m + 1, by omega, ?_, ?_⟩
      · show (initPush failAt now i (n + 1) s).1 = _
        simp only [initPush, h, if_false]
        rw [hfst]
        cases s with
        | mk p b n0 =>
          simp [mkEntries, List.append_assoc]
          omega
      · intro hs
        have h2 : (initPush failAt now (i + 1) n
            { s with
              pool := s.pool ++ [{ client := s.nextId, inUse := false, lastUsed := now }],
              nextId := s.nextId + 1 }).2 = true := by
          simpa [initPush, h] using hs
        have := hsnd h2
        omega

/-- With no creation failure the loop reports success. -/
lemma initPush_none_snd (now : Nat) :
    ∀ k i s, (initPush none now i k s).2 = true := by
  intro k
  induction k with
  | zero => intro i s; rfl
  | succ n ih =>
    intro i s
    simpa [initPush] using
      ih (i + 1)
        { s with
          pool := s.pool ++ [{ client := s.nextId, inUse := false, lastUsed := now }],
          nextId := s.nextId + 1 }

/-- Initializing an already-initialized pool is an error-free no-op. -/
lemma initPool_of_init (cfg : PoolConfig) (failAt : Option Nat) (now : Nat)
    (s : PoolState) (h : s.initialized = true) :
    initPool cfg failAt now s = (s, Except.ok ()) := by
  simp [initPool, h]

/-- Successful initialization of an uninitialized pool appends exactly
`maxSize` fresh free entries and raises the flag. -/
lemma initPool_of_uninit (cfg : PoolConfig) (now : Nat) (s : PoolState)
    (h : s.initialized = false) :
    initPool cfg none now s =
      ({ pool := s.pool ++ mkEntries now s.nextId cfg.maxSize, initialized := true,
         nextId := s.nextId + cfg.maxSize }, Except.ok ()) := by
  obtain ⟨m, hm, hfst, hsnd⟩ := initPush_fst none now cfg.maxSize 0 s
  have h2 := initPush_none_snd now cfg.maxSize 0 s
  have hmk := hsnd h2
  subst hmk
  simp only [initPool, h, Bool.false_eq_true, if_false, h2, if_true]
  rw [hfst]

/-- Whatever the oracle does, initialization only appends a block of fresh
entries and bumps the counter accordingly. -/
lemma initPool_ext (cfg : PoolConfig) (failAt : Option Nat) (now : Nat) (s : PoolState) :
    ∃ m, (initPool cfg failAt now s).1.pool = s.pool ++ mkEntries now s.nextId m ∧
      (initPool cfg failAt now s).1.nextId = s.nextId + m := by
  by_cases h : s.initialized
  · refine ⟨0, ?_, ?_⟩ <;> simp [initPool, h, mkEntries]
  · obtain ⟨m, hm, hfst, hsnd⟩ := initPush_fst failAt now cfg.maxSize 0 s
    refine ⟨m, ?_, ?_⟩ <;>
      · simp only [initPool, h, Bool.false_eq_true, if_false]
        split <;> simp [hfst]

/-- A failed initialization leaves the `initialized` flag down. -/
lemma initPool_error (cfg : PoolConfig) (failAt : Option Nat) (now : Nat)
    (s : PoolState) (e : DBError)
    (h : (initPool cfg failAt now s).2 = Except.error e) :
    (initPool cfg failAt now s).1.initialized = false := by
  by_cases hi : s.initialized
  · simp [initPool, hi] at h
  · obtain ⟨m, hm, hfst, hsnd⟩ := initPush_fst failAt now cfg.maxSize 0 s
    simp only [initPool, Bool.not_eq_true] at hi h ⊢
    rw [hi] at h ⊢
    simp only [Bool.false_eq_true, if_false] at h ⊢
    by_cases hr : (initPush failAt now 0 cfg.maxSize s).2 = true
    · rw [hr] at h
      simp at h
    · rw [Bool.not_eq_true] at hr
      rw [hr] at h ⊢
      simp only [Bool.false_eq_true, if_false]
      rw [hfst]
      exact hi

/-- The first-fit scan on a pool whose prefix `l` is fully checked out finds
exactly the entry `e` after it. -/
lemma find_first_free (e : PoolConnection) (r : List PoolConnection) :
    ∀ l, (∀ x ∈ l, x.inUse = true) → e.inUse = false →
      List.find? (fun c => !c.inUse) (l ++ e :: r) = some e := by
  intro l
  induction l with
  | nil =>
    intro _ he
    simp [List.find?_cons, he]
  | cons a as ih =>
    intro hl he
    have ha : a.inUse = true := hl a (by simp)
    simp only [List.cons_append, List.find?_cons, ha]
    exact ih (fun x hx => hl x (by simp [hx])) he

/-- Marking the first free entry of a decomposed pool touches nothing else. -/
lemma setFirstFree_append (now : Nat) (e : PoolConnection) (r : List PoolConnection) :
    ∀ l, (∀ x ∈ l, x.inUse = true) → e.inUse = false →
      setFirstFree now (l ++ e :: r) =
        l ++ { e with inUse := true, lastUsed := now } :: r := by
  intro l
  induction l with
  | nil =>
    intro _ he
    simp [setFirstFree, he]
  | cons a as ih =>
    intro hl he
    have ha : a.inUse = true := hl a (by simp)
    simp only [List.cons_append, setFirstFree, ha, if_true]
    exact congrArg (fun t => a :: t) (ih (fun x hx => hl x (by simp [hx])) he)

/-- Marking an entry does not change the handle sequence. -/
lemma setFirstFree_clients (now : Nat) :
    ∀ p : List PoolConnection,
      (setFirstFree now p).map (fun e => e.client) = p.map (fun e => e.client) := by
  intro p
  induction p with
  | nil => rfl
  | cons a as ih =>
    by_cases ha : a.inUse
    · simp [setFirstFree, ha, ih]
    · simp [setFirstFree, ha]

/-- Marking an entry does not change the pool size. -/
lemma setFirstFree_length (now : Nat) :
    ∀ p : List PoolConnection, (setFirstFree now p).length = p.length := by
  intro p
  have h := congrArg List.length (setFirstFree_clients now p)
  simpa using h

/-- If every entry with handle `c` is checked out, that stays true after the
scan marks some (necessarily different) entry. -/
lemma setFirstFree_busy_pres (c : Nat) (now : Nat) :
    ∀ p : List PoolConnection, (∀ e ∈ p, e.client = c → e.inUse = true) →
      ∀ e ∈ setFirstFree now p, e.client = c → e.inUse = true := by
  intro p
  induction p with
  | nil => intro _ e he; simp [setFirstFree] at he
  | cons a as ih =>
    intro hp e he hec
    by_cases ha : a.inUse
    · simp only [setFirstFree, ha, if_true] at he
      rcases (List.mem_cons).mp he with h | h
      · rw [h]; exact ha
      · exact ih (fun x hx => hp x (by simp [hx])) e h hec
    · simp only [setFirstFree, ha, if_false] at he
      rcases (List.mem_cons).mp he with h | h
      · rw [h]
      · exact hp e (by simp [h]) hec

/-- After the scan marks the entry it found, every entry carrying that
handle is checked out (handles are assumed distinct). -/
lemma setFirstFree_marks (now : Nat) (conn : PoolConnection) :
    ∀ p : List PoolConnection, (p.map (fun e => e.client)).Nodup →
      List.find? (fun x => !x.inUse) p = some conn →
      ∀ e ∈ setFirstFree now p, e.client = conn.client → e.inUse = true := by
  intro p
  induction p with
  | nil => intro _ hf; simp at hf
  | cons a as ih =>
    intro hnd hf e he hec
    rcases (List.nodup_cons).mp hnd with ⟨hna, hnd'⟩
    by_cases ha : a.inUse
    · have hf' : List.find? (fun x => !x.inUse) as = some conn := by
        simpa [List.find?_cons, ha] using hf
      simp only [setFirstFree, ha, if_true] at he
      rcases (List.mem_cons).mp he with h | h
      · rw [h]; exact ha
      · exact ih hnd' hf' e h hec
    · have hconn : conn = a := by
        have : some a = some conn := by simpa [List.find?_cons, ha] using hf
        exact (Option.some.inj this).symm
      simp only [setFirstFree, ha, if_false] at he
      rcases (List.mem_cons).mp he with h | h
      · rw [h]
      · exfalso
        apply hna
        show a.client ∈ List.map (fun e => e.client) as
        have hac : a.client = e.client := by rw [hec, hconn]
        rw [hac]
        exact List.mem_map.mpr ⟨e, h, rfl⟩

/-- Releasing does not change the handle sequence. -/
lemma releaseGo_clients (c now : Nat) :
    ∀ p : List PoolConnection,
      (releaseGo c now p).map (fun e => e.client) = p.map (fun e => e.client) := by
  intro p
  induction p with
  | nil => rfl
  | cons a as ih =>
    by_cases ha : a.client = c
    · simp [releaseGo, ha]
    · simp [releaseGo, ha, ih]

/-- Releasing does not change the pool size. -/
lemma releaseGo_length (c now : Nat) :
    ∀ p : List PoolConnection, (releaseGo c now p).length = p.length := by
  intro p
  have h := congrArg List.length (releaseGo_clients c now p)
  simpa using h

/-- Releasing a handle different from `c` keeps every `c`-entry checked
out. -/
lemma releaseGo_pres (c c' now : Nat) (hne : c' ≠ c) :
    ∀ p : List PoolConnection, (∀ e ∈ p, e.client = c → e.inUse = true) →
      ∀ e ∈ releaseGo c' now p, e.client = c → e.inUse = true := by
  intro p
  induction p with
  | nil => intro _ e he; simp [releaseGo] at he
  | cons a as ih =>
    intro hp e he hec
    by_cases ha : a.client = c'
    · simp only [releaseGo, ha, if_true] at he
      rcases (List.mem_cons).mp he with h | h
      · exfalso
        have hc' : e.client = c' := by rw [h]
        exact hne (by omega)
      · exact hp e (by simp [h]) hec
    · simp only [releaseGo, ha, if_false] at he
      rcases (List.mem_cons).mp he with h | h
      · rw [h]
        exact hp a (by simp) (by rw [← h]; exact hec)
      · exact ih (fun x hx => hp x (by simp [hx])) e h hec

/-- Releasing a handle no entry carries is the identity. -/
lemma releaseGo_miss (c now : Nat) :
    ∀ p : List PoolConnection, (∀ e ∈ p, e.client ≠ c) → releaseGo c now p = p := by
  intro p
  induction p with
  | nil => intro _; rfl
  | cons a as ih =>
    intro hp
    have ha : a.client ≠ c := hp a (by simp)
    simp only [releaseGo, ha, if_false]
    rw [ih (fun x hx => hp x (by simp [hx]))]

/-- Releasing hits the first entry carrying the handle and touches nothing
else. -/
lemma releaseGo_hit (c now : Nat) (e : PoolConnection) (r : List PoolConnection)
    (he : e.client = c) :
    ∀ l, (∀ x ∈ l, x.client ≠ c) →
      releaseGo c now (l ++ e :: r) =
        l ++ { e with inUse := false, lastUsed := now } :: r := by
  intro l
  induction l with
  | nil =>
    intro _
    simp [releaseGo, he]
  | cons a as ih =>
    intro hl
    have ha : a.client ≠ c := hl a (by simp)
    simp only [List.cons_append, releaseGo, ha, if_false]
    exact congrArg (fun t => a :: t) (ih (fun x hx => hl x (by simp [hx])))

/-- A second release of the same handle is absorbed by the first (only the
timestamp of the target entry can differ, and it is overwritten). -/
lemma releaseGo_absorb (c n1 n2 : Nat) :
    ∀ p : List PoolConnection,
      releaseGo c n2 (releaseGo c n1 p) = releaseGo c n2 p := by
  intro p
  induction p with
  | nil => rfl
  | cons a as ih =>
    by_cases ha : a.client = c
    · simp [releaseGo, ha]
    · simp [releaseGo, ha, ih]

/-- The handle/flag projection of a released pool does not depend on the
release timestamp. -/
lemma releaseGo_pair (c n1 n2 : Nat) :
    ∀ p : List PoolConnection,
      (releaseGo c n1 p).map (fun e => (e.client, e.inUse)) =
        (releaseGo c n2 p).map (fun e => (e.client, e.inUse)) := by
  intro p
  induction p with
  | nil => rfl
  | cons a as ih =>
    by_cases ha : a.client = c
    · simp [releaseGo, ha]
    · simp [releaseGo, ha, ih]

/-- The checked-out count of a released pool does not depend on the release
timestamp. -/
lemma releaseGo_count (c n1 n2 : Nat) :
    ∀ p : List PoolConnection,
      ((releaseGo c n1 p).filter (fun e => e.inUse)).length =
        ((releaseGo c n2 p).filter (fun e => e.inUse)).length := by
  intro p
  induction p with
  | nil => rfl
  | cons a as ih =>
    by_cases ha : a.client = c
    · simp [releaseGo, ha]
    · simp only [releaseGo, ha, if_false, List.filter_cons]
      by_cases hu : a.inUse
      · simp [hu, ih]
      · simp [hu, ih]

/-- A polling loop that ends in an error leaves the state untouched. -/
lemma acquireLoop_error_fst (timeout : Int) (start : Nat) :
    ∀ (times : List Nat) (s : PoolState) (e : DBError),
      (acquireLoop timeout start s times).2 = Except.error e →
      (acquireLoop timeout start s times).1 = s := by
  intro times
  induction times with
  | nil => intro s e _; rfl
  | cons now rest ih =>
    intro s e h
    by_cases hg : (now : Int) - (start : Int) < timeout
    · rcases hf : s.pool.find? (fun c => !c.inUse) with _ | conn
      · have hrw : acquireLoop timeout start s (now :: rest) = acquireLoop timeout start s rest := by
          simp [acquireLoop, hg, hf]
        rw [hrw] at h ⊢
        exact ih s e h
      · exfalso
        have : (acquireLoop timeout start s (now :: rest)).2 = Except.ok conn.client := by
          simp [acquireLoop, hg, hf]
        rw [this] at h
        exact Except.noConfusion h
    · simp [acquireLoop, hg]

/-- With every entry checked out, the polling loop necessarily times out,
reporting the configured timeout and leaving the state untouched. -/
lemma acquireLoop_busy (timeout : Int) (start : Nat) :
    ∀ (times : List Nat) (s : PoolState), (∀ c ∈ s.pool, c.inUse = true) →
      acquireLoop timeout start s times =
        (s, Except.error (DBError.acquireTimeout timeout)) := by
  intro times
  induction times with
  | nil => intro s _; rfl
  | cons now rest ih =>
    intro s hbusy
    have hf : s.pool.find? (fun c => !c.inUse) = none := by
      rw [List.find?_eq_none]
      intro x hx
      simp [hbusy x hx]
    by_cases hg : (now : Int) - (start : Int) < timeout
    · have hrw : acquireLoop timeout start s (now :: rest) = acquireLoop timeout start s rest := by
        simp [acquireLoop, hg, hf]
      rw [hrw]
      exact ih s hbusy
    · simp [acquireLoop, hg]

/-- The polling loop either leaves the state alone or marks the first free
entry at one of its clock readings. -/
lemma acquireLoop_fst_cases (timeout : Int) (start : Nat) :
    ∀ (times : List Nat) (s : PoolState),
      (acquireLoop timeout start s times).1 = s ∨
        ∃ n, (acquireLoop timeout start s times).1 =
          { s with pool := setFirstFree n s.pool } := by
  intro times
  induction times with
  | nil => intro s; exact Or.inl rfl
  | cons now rest ih =>
    intro s
    by_cases hg : (now : Int) - (start : Int) < timeout
    · rcases hf : s.pool.find? (fun c => !c.inUse) with _ | conn
      · have hrw : acquireLoop timeout start s (now :: rest) = acquireLoop timeout start s rest := by
          simp [acquireLoop, hg, hf]
        rw [hrw]
        exact ih s
      · refine Or.inr ⟨now, ?_⟩
        simp [acquireLoop, hg, hf]
    · simp [acquireLoop, hg]

/-- A successful polling loop returns the client of the entry the first-fit
scan found, and the new state is exactly that entry marked. -/
lemma acquireLoop_ok (timeout : Int) (start : Nat) :
    ∀ (times : List Nat) (s s' : PoolState) (c : Nat),
      acquireLoop timeout start s times = (s', Except.ok c) →
      ∃ n conn, List.find? (fun x => !x.inUse) s.pool = some conn ∧ conn.client = c ∧
        s' = { s with pool := setFirstFree n s.pool } := by
  intro times
  induction times with
  | nil =>
    intro s s' c h
    exact absurd (congrArg Prod.snd h) (by simp [acquireLoop])
  | cons now rest ih =>
    intro s s' c h
    by_cases hg : (now : Int) - (start : Int) < timeout
    · rcases hf : s.pool.find? (fun c => !c.inUse) with _ | conn
      · have hrw : acquireLoop timeout start s (now :: rest) = acquireLoop timeout start s rest := by
          simp [acquireLoop, hg, hf]
        rw [hrw] at h
        exact ih s s' c h
      · have hrw : acquireLoop timeout start s (now :: rest) =
            ({ s with pool := setFirstFree now s.pool }, Except.ok conn.client) := by
          simp [acquireLoop, hg, hf]
        rw [hrw] at h
        have h1 := congrArg Prod.fst h
        have h2 := congrArg Prod.snd h
        simp only [] at h1 h2
        have h2' : conn.client = c := by
          exact Except.ok.inj h2
        exact ⟨now, conn, hf, h2', h1.symm⟩
    · rw [show acquireLoop timeout start s (now :: rest) =
          (s, Except.error (DBError.acquireTimeout timeout)) by simp [acquireLoop, hg]] at h
      exact absurd (congrArg Prod.snd h) (by simp)

/-- The state `acquire` scans: the input state, after the lazy
initialization if the flag was down. -/
def postInit (cfg : PoolConfig) (failAt : Option Nat) (initNow : Nat) (s : PoolState) :
    PoolState :=
  if s.initialized then s else (initPool cfg failAt initNow s).1

/-- The post-initialization state extends the pool by a block of fresh free
entries and bumps the counter to match. -/
lemma postInit_pool (cfg : PoolConfig) (failAt : Option Nat) (initNow : Nat) (s : PoolState) :
    ∃ m, (postInit cfg failAt initNow s).pool = s.pool ++ mkEntries initNow s.nextId m ∧
      (postInit cfg failAt initNow s).nextId = s.nextId + m := by
  by_cases hi : s.initialized
  · exact ⟨0, by simp [postInit, hi, mkEntries], by simp [postInit, hi]⟩
  · obtain ⟨m, h1, h2⟩ := initPool_ext cfg failAt initNow s
    exact ⟨m, by simp [postInit, hi, h1], by simp [postInit, hi, h2]⟩

/-- `acquire` either leaves the scanned state alone or marks its first free
entry. -/
lemma acquire_fst_cases (cfg : PoolConfig) (failAt : Option Nat) (initNow start : Nat)
    (times : List Nat) (s : PoolState) :
    (acquire cfg failAt initNow start times s).1 = postInit cfg failAt initNow s ∨
      ∃ n, (acquire cfg failAt initNow start times s).1 =
        { postInit cfg failAt initNow s with
          pool := setFirstFree n (postInit cfg failAt initNow s).pool } := by
  by_cases hi : s.initialized
  · simpa [acquire, postInit, hi] using acquireLoop_fst_cases cfg.timeout start times s
  · rcases hp : initPool cfg failAt initNow s with ⟨s1, r⟩
    have hpost : postInit cfg failAt initNow s = s1 := by simp [postInit, hi, hp]
    cases r with
    | ok u =>
      have hrw : acquire cfg failAt initNow start times s =
          acquireLoop cfg.timeout start s1 times := by
        simp [acquire, hi, hp]
      rw [hrw, hpost]
      exact acquireLoop_fst_cases cfg.timeout start times s1
    | error e =>
      have hrw : acquire cfg failAt initNow start times s = (s1, Except.error e) := by
        simp [acquire, hi, hp]
      rw [hrw, hpost]
      exact Or.inl rfl

/-- Handle hygiene survives appending a fresh block. -/
lemma clientsOk_ext (s t : PoolState) (now m : Nat) (h : ClientsOk s)
    (hp : t.pool = s.pool ++ mkEntries now s.nextId m)
    (hn : t.nextId = s.nextId + m) : ClientsOk t := by
  constructor
  · intro e he
    rw [hp] at he
    rw [hn]
    rcases List.mem_append.mp he with h1 | h1
    · have := h.1 e h1
      omega
    · have := mkEntries_client_bounds now m s.nextId e h1
      omega
  · rw [hp, List.map_append, List.nodup_append]
    refine ⟨h.2, mkEntries_nodup now m s.nextId, ?_⟩
    intro a ha1 ha2
    rcases List.mem_map.mp ha1 with ⟨e1, he1, hq1⟩
    rcases List.mem_map.mp ha2 with ⟨e2, he2, hq2⟩
    have b1 := h.1 e1 he1
    have b2 := mkEntries_client_bounds now m s.nextId e2 he2
    omega

/-- Handle hygiene only depends on the handle sequence. -/
lemma clientsOk_of_clients (s t : PoolState) (h : ClientsOk s)
    (hp : t.pool.map (fun e => e.client) = s.pool.map (fun e => e.client))
    (hn : t.nextId = s.nextId) : ClientsOk t := by
  constructor
  · intro e he
    have hm : e.client ∈ t.pool.map (fun e => e.client) := List.mem_map.mpr ⟨e, he, rfl⟩
    rw [hp] at hm
    rcases List.mem_map.mp hm with ⟨e', he', hq⟩
    rw [hn, ← hq]
    exact h.1 e' he'
  · rw [hp]
    exact h.2

/-- `closeAll` either aborts leaving the state alone or empties the pool and
lowers the flag. -/
lemma closeAll_fst_cases (failIds : List Nat) (s : PoolState) :
    (closeAll failIds s).1 = s ∨
      (closeAll failIds s).1 = { s with pool := [], initialized := false } := by
  rcases hcl : (closeLoop failIds s.pool).2 with _ | cause
  · right
    simp [closeAll, hcl]
  · left
    simp [closeAll, hcl]

/-- Every pool operation preserves handle hygiene. -/
lemma clientsOk_step (cfg : PoolConfig) (s : PoolState) (op : PoolOp)
    (h : ClientsOk s) : ClientsOk (step cfg s op) := by
  cases op with
  | init failAt now =>
    obtain ⟨m, h1, h2⟩ := initPool_ext cfg failAt now s
    exact clientsOk_ext s _ now m h h1 h2
  | acq failAt initNow start times =>
    obtain ⟨m, h1, h2⟩ := postInit_pool cfg failAt initNow s
    have hpost : ClientsOk (postInit cfg failAt initNow s) :=
      clientsOk_ext s _ initNow m h h1 h2
    rcases acquire_fst_cases cfg failAt initNow start times s with hc | ⟨n, hc⟩
    · show ClientsOk (acquire cfg failAt initNow start times s).1
      rw [hc]
      exact hpost
    · show ClientsOk (acquire cfg failAt initNow start times s).1
      rw [hc]
      exact clientsOk_of_clients _ _ hpost (setFirstFree_clients n _) rfl
  | rel client now =>
    exact clientsOk_of_clients _ _ h (releaseGo_clients client now s.pool) rfl
  | close failIds =>
    show ClientsOk (closeAll failIds s).1
    rcases closeAll_fst_cases failIds s with hc | hc
    · rw [hc]
      exact h
    · rw [hc]
      exact ⟨by intro e he; simp at he, by simp⟩

/-- A held (or retired) handle stays held across a fresh-block append. -/
lemma notFree_ext (c : Nat) (s t : PoolState) (now m : Nat) (h : NotFree c s)
    (hp : t.pool = s.pool ++ mkEntries now s.nextId m)
    (hn : t.nextId = s.nextId + m) : NotFree c t := by
  refine ⟨by rw [hn]; have := h.1; omega, ?_⟩
  intro e he hec
  rw [hp] at he
  rcases List.mem_append.mp he with h1 | h1
  · exact h.2 e h1 hec
  · exfalso
    have hb := mkEntries_client_bounds now m s.nextId e h1
    have := h.1
    omega

/-- Every operation other than a release of `c` (and with fresh handles
never reminting `c`) keeps `c` held or retired. -/
lemma notFree_step (cfg : PoolConfig) (s : PoolState) (op : PoolOp) (c : Nat)
    (h : NotFree c s) (hop : ∀ now, op ≠ PoolOp.rel c now) :
    NotFree c (step cfg s op) := by
  cases op with
  | init failAt now =>
    obtain ⟨m, h1, h2⟩ := initPool_ext cfg failAt now s
    exact notFree_ext c s _ now m h h1 h2
  | acq failAt initNow start times =>
    obtain ⟨m, h1, h2⟩ := postInit_pool cfg failAt initNow s
    have hpost : NotFree c (postInit cfg failAt initNow s) :=
      notFree_ext c s _ initNow m h h1 h2
    rcases acquire_fst_cases cfg failAt initNow start times s with hc | ⟨n, hc⟩
    · show NotFree c (acquire cfg failAt initNow start times s).1
      rw [hc]
      exact hpost
    · show NotFree c (acquire cfg failAt initNow start times s).1
      rw [hc]
      exact ⟨hpost.1, setFirstFree_busy_pres c n _ hpost.2⟩
  | rel client now =>
    have hne : client ≠ c := by
      intro hcc
      exact hop now (by rw [hcc])
    exact ⟨h.1, releaseGo_pres c client now hne s.pool h.2⟩
  | close failIds =>
    show NotFree c (closeAll failIds s).1
    rcases closeAll_fst_cases failIds s with hc | hc
    · rw [hc]
      exact h
    · rw [hc]
      exact ⟨h.1, by intro e he; simp at he⟩

/-- Running a concatenation of traces runs them in order. -/
lemma run_append (cfg : PoolConfig) (s : PoolState) (a b : List PoolOp) :
    run cfg s (a ++ b) = run cfg (run cfg s a) b := by
  simp [run, List.foldl_append]

/-- Running a trace step by step. -/
lemma run_cons (cfg : PoolConfig) (s : PoolState) (op : PoolOp) (ops : List PoolOp) :
    run cfg s (op :: ops) = run cfg (step cfg s op) ops := rfl

/-- Handle hygiene is preserved by whole traces. -/
lemma clientsOk_run (cfg : PoolConfig) :
    ∀ (ops : List PoolOp) (s : PoolState), ClientsOk s → ClientsOk (run cfg s ops) := by
  intro ops
  induction ops with
  | nil => intro s h; exact h
  | cons op ops ih =>
    intro s h
    rw [run_cons]
    exact ih _ (clientsOk_step cfg s op h)

/-- A held handle stays held across any trace that never releases it. -/
lemma notFree_run (cfg : PoolConfig) (c : Nat) :
    ∀ (ops : List PoolOp) (s : PoolState), NotFree c s →
      (∀ op ∈ ops, ∀ now, op ≠ PoolOp.rel c now) → NotFree c (run cfg s ops) := by
  intro ops
  induction ops with
  | nil => intro s h _; exact h
  | cons op ops ih =>
    intro s h hno
    rw [run_cons]
    exact ih _ (notFree_step cfg s op c h (hno op (by simp)))
      (fun x hx => hno x (by simp [hx]))

/-- Lazy initialization preserves handle hygiene. -/
lemma clientsOk_initPool (cfg : PoolConfig) (failAt : Option Nat) (now : Nat)
    (s : PoolState) (h : ClientsOk s) : ClientsOk (initPool cfg failAt now s).1 := by
  obtain ⟨m, h1, h2⟩ := initPool_ext cfg failAt now s
  exact clientsOk_ext s _ now m h h1 h2

/-- Lazy initialization keeps a held handle held. -/
lemma notFree_initPool (cfg : PoolConfig) (failAt : Option Nat) (now : Nat)
    (s : PoolState) (c : Nat) (h : NotFree c s) : NotFree c (initPool cfg failAt now s).1 := by
  obtain ⟨m, h1, h2⟩ := initPool_ext cfg failAt now s
  exact notFree_ext c s _ now m h h1 h2

/-- A successful `acquire` is a successful polling loop over the
post-initialization state. -/
lemma acquire_ok_shape (cfg : PoolConfig) (failAt : Option Nat) (initNow start : Nat)
    (times : List Nat) (s s' : PoolState) (c : Nat)
    (h : acquire cfg failAt initNow start times s = (s', Except.ok c)) :
    ∃ s1, ((s.initialized = true ∧ s1 = s) ∨
        (s.initialized = false ∧ s1 = (initPool cfg failAt initNow s).1)) ∧
      acquireLoop cfg.timeout start s1 times = (s', Except.ok c) := by
  by_cases hi : s.initialized
  · exact ⟨s, Or.inl ⟨hi, rfl⟩, by simpa [acquire, hi] using h⟩
  · rw [Bool.not_eq_true] at hi
    rcases hp : initPool cfg failAt initNow s with ⟨s1, r⟩
    cases r with
    | ok u =>
      refine ⟨s1, Or.inr ⟨hi, by simp [hp]⟩, ?_⟩
      have hrw : acquire cfg failAt initNow start times s =
          acquireLoop cfg.timeout start s1 times := by
        simp [acquire, hi, hp]
      rw [← hrw]
      exact h
    | error e =>
      exfalso
      have hrw : acquire cfg failAt initNow start times s = (s1, Except.error e) := by
        simp [acquire, hi, hp]
      rw [hrw] at h
      exact absurd (congrArg Prod.snd h) (by simp)

/-- When an `acquire` operation hands out client `c`, the handle `c` is held
in the resulting state. -/
lemma acqRet_ok_notFree (cfg : PoolConfig) (s : PoolState) (op : PoolOp) (c : Nat)
    (hok : ClientsOk s) (h : acqRet cfg s op = some c) : NotFree c (step cfg s op) := by
  cases op with
  | init failAt now => simp [acqRet] at h
  | rel cl now => simp [acqRet] at h
  | close failIds => simp [acqRet] at h
  | acq failAt initNow start times =>
    rcases hr : acquire cfg failAt initNow start times s with ⟨s', res⟩
    cases res with
    | error e => simp [acqRet, hr] at h
    | ok c' =>
      have hcc : c' = c := by simpa [acqRet, hr] using h
      subst hcc
      show NotFree c' (acquire cfg failAt initNow start times s).1
      rw [hr]
      obtain ⟨s1, hcase, hloop⟩ :=
        acquire_ok_shape cfg failAt initNow start times s s' c' hr
      have hok1 : ClientsOk s1 := by
        rcases hcase with ⟨_, rfl⟩ | ⟨_, hs1⟩
        · exact hok
        · rw [hs1]
          exact clientsOk_initPool cfg failAt initNow s hok
      obtain ⟨n, conn, hfind, hc, hs'⟩ :=
        acquireLoop_ok cfg.timeout start times s1 s' c' hloop
      have hmem := List.mem_of_find?_eq_some hfind
      constructor
      · have := hok1.1 conn hmem
        rw [hs']
        show c' < s1.nextId
        omega
      · rw [hs']
        intro e he hec
        exact setFirstFree_marks n conn s1.pool hok1.2 hfind e he (by rw [hec, hc])

/-- A held handle is never handed out again by any operation. -/
lemma notFree_no_acqRet (cfg : PoolConfig) (s : PoolState) (op : PoolOp) (c : Nat)
    (h : NotFree c s) : acqRet cfg s op ≠ some c := by
  cases op with
  | init failAt now => simp [acqRet]
  | rel cl now => simp [acqRet]
  | close failIds => simp [acqRet]
  | acq failAt initNow start times =>
    intro hsome
    rcases hr : acquire cfg failAt initNow start times s with ⟨s', res⟩
    cases res with
    | error e => simp [acqRet, hr] at hsome
    | ok c' =>
      have hcc : c' = c := by simpa [acqRet, hr] using hsome
      subst hcc
      obtain ⟨s1, hcase, hloop⟩ :=
        acquire_ok_shape cfg failAt initNow start times s s' c' hr
      have h1 : NotFree c' s1 := by
        rcases hcase with ⟨_, rfl⟩ | ⟨_, hs1⟩
        · exact h
        · rw [hs1]
          exact notFree_initPool cfg failAt initNow s c' h
      obtain ⟨n, conn, hfind, hc, _⟩ :=
        acquireLoop_ok cfg.timeout start times s1 s' c' hloop
      have hmem := List.mem_of_find?_eq_some hfind
      have hfree : (!conn.inUse) = true := by
        have hp := List.find?_some hfind
        simpa using hp
      have hbusy : conn.inUse = true := h1.2 conn hmem hc
      simp [hbusy] at hfree

/-- The size invariant is preserved by any operation whose initialization
oracle reports no failure. -/
lemma capInv_step (cfg : PoolConfig) (s : PoolState) (op : PoolOp)
    (h : CapInv cfg s) (hop : initOk op = true) : CapInv cfg (step cfg s op) := by
  cases op with
  | init failAt now =>
    have hfa : failAt = none := by
      simpa [initOk, Option.isNone_iff_eq_none] using hop
    subst hfa
    by_cases hi : s.initialized
    · show CapInv cfg (initPool cfg none now s).1
      rw [initPool_of_init cfg none now s hi]
      exact h
    · rw [Bool.not_eq_true] at hi
      have hpool : s.pool = [] := h.2 hi
      show CapInv cfg (initPool cfg none now s).1
      rw [initPool_of_uninit cfg now s hi]
      constructor
      · intro _
        simp [hpool, mkEntries_length]
      · intro hcontra
        simp at hcontra
  | acq failAt initNow start times =>
    have hfa : failAt = none := by
      simpa [initOk, Option.isNone_iff_eq_none] using hop
    subst hfa
    have hpost : CapInv cfg (postInit cfg none initNow s) := by
      by_cases hi : s.initialized
      · simpa [postInit, hi] using h
      · rw [Bool.not_eq_true] at hi
        have hpool : s.pool = [] := h.2 hi
        simp only [postInit, hi, Bool.false_eq_true, if_false]
        rw [initPool_of_uninit cfg initNow s hi]
        constructor
        · intro _
          simp [hpool, mkEntries_length]
        · intro hcontra
          simp at hcontra
    rcases acquire_fst_cases cfg none initNow start times s with hc | ⟨n, hc⟩
    · show CapInv cfg (acquire cfg none initNow start times s).1
      rw [hc]
      exact hpost
    · show CapInv cfg (acquire cfg none initNow start times s).1
      rw [hc]
      constructor
      · intro hinit
        show (setFirstFree n (postInit cfg none initNow s).pool).length = cfg.maxSize
        rw [setFirstFree_length]
        exact hpost.1 hinit
      · intro hflag
        have hpool := hpost.2 hflag
        show setFirstFree n (postInit cfg none initNow s).pool = []
        rw [hpool]
        rfl
  | rel cl now =>
    constructor
    · intro hi
      show (releaseGo cl now s.pool).length = cfg.maxSize
      rw [releaseGo_length]
      exact h.1 hi
    · intro hf
      have := h.2 hf
      show releaseGo cl now s.pool = []
      rw [this]
      rfl
  | close failIds =>
    show CapInv cfg (closeAll failIds s).1
    rcases closeAll_fst_cases failIds s with hc | hc
    · rw [hc]
      exact h
    · rw [hc]
      exact ⟨by intro hi; simp at hi, by intro _; rfl⟩

/-- The size invariant is preserved by failure-free traces. -/
lemma capInv_run (cfg : PoolConfig) :
    ∀ (ops : List PoolOp) (s : PoolState), CapInv cfg s →
      (∀ op ∈ ops, initOk op = true) → CapInv cfg (run cfg s ops) := by
  intro ops
  induction ops with
  | nil => intro s h _; exact h
  | cons op ops ih =>
    intro s h hok
    rw [run_cons]
    exact ih _ (capInv_step cfg s op h (hok op (by simp)))
      (fun x hx => hok x (by simp [hx]))

/-- Under the size invariant, the checked-out count is bounded by the
capacity. -/
lemma countInUse_le (cfg : PoolConfig) (s : PoolState) (h : CapInv cfg s) :
    countInUse s ≤ cfg.maxSize := by
  by_cases hi : s.initialized
  · have hl := h.1 hi
    calc countInUse s ≤ s.pool.length := List.length_filter_le _ _
    _ = cfg.maxSize := hl
  · rw [Bool.not_eq_true] at hi
    simp [countInUse, h.2 hi]

/-- An `acquire` that throws hands back exactly the post-initialization
state. -/
lemma acquire_error_fst (cfg : PoolConfig) (failAt : Option Nat)
    (initNow start : Nat) (times : List Nat) (t : PoolState) (e : DBError)
    (h : (acquire cfg failAt initNow start times t).2 = Except.error e) :
    (acquire cfg failAt initNow start times t).1 = postInit cfg failAt initNow t := by
  by_cases hi : t.initialized
  · have h2 : (acquireLoop cfg.timeout start t times).2 = Except.error e := by
      simpa [acquire, hi] using h
    have h1 := acquireLoop_error_fst cfg.timeout start times t e h2
    simp [acquire, hi, postInit, h1]
  · rw [Bool.not_eq_true] at hi
    rcases hp : initPool cfg failAt initNow t with ⟨t1, r⟩
    cases r with
    | ok u =>
      have h2 : (acquireLoop cfg.timeout start t1 times).2 = Except.error e := by
        simpa [acquire, hi, hp] using h
      have h1 := acquireLoop_error_fst cfg.timeout start times t1 e h2
      simp [acquire, hi, hp, postInit, h1]
    | error e' =>
      simp [acquire, hi, hp, postInit]

/-- The close loop over a pool with no failing handle attempts every close
in order and succeeds. -/
lemma closeLoop_ok (failIds : List Nat) :
    ∀ p : List PoolConnection, (∀ x ∈ p, x.client ∉ failIds) →
      closeLoop failIds p = (p.map (fun x => x.client), none) := by
  intro p
  induction p with
  | nil => intro _; rfl
  | cons a as ih =>
    intro hp
    have ha : a.client ∉ failIds := hp a (by simp)
    simp only [closeLoop, ha, if_false]
    rw [ih (fun x hx => hp x (by simp [hx]))]
    rfl

/-- The close loop aborts at the first failing handle: closes after it are
never attempted. -/
lemma closeLoop_fail (failIds : List Nat) (e : PoolConnection)
    (r : List PoolConnection) (he : e.client ∈ failIds) :
    ∀ l, (∀ x ∈ l, x.client ∉ failIds) →
      closeLoop failIds (l ++ e :: r) =
        (l.map (fun x => x.client) ++ [e.client], some e.client) := by
  intro l
  induction l with
  | nil =>
    intro _
    simp [closeLoop, he]
  | cons a as ih =>
    intro hl
    have ha : a.client ∉ failIds := hl a (by simp)
    have h2 := ih (fun x hx => hl x (by simp [hx]))
    simp only [List.cons_append, closeLoop, ha, if_false]
    show (a.client :: (closeLoop failIds (as ++ e :: r)).1,
        (closeLoop failIds (as ++ e :: r)).2) = _
    rw [h2]
    rfl

/-- C2: `acquire` behaviour.  On an initialized pool whose scan decomposes as
a fully-busy prefix `l`, a free entry `e`, and a remainder `r`, an `acquire`
whose first clock reading passes the timeout guard marks exactly `e`
(first-fit in scan order), setting `inUse := true` and `lastUsed` to the
clock reading, returns `e`'s connection, and leaves every other entry
unchanged; and on an uninitialized pool `acquire` first runs the lazy
initialization and then scans the initialized state. -/
theorem acquire_firstFit (cfg : PoolConfig) (failAt : Option Nat)
    (initNow start now : Nat) (rest times : List Nat)
    (s t : PoolState) (l r : List PoolConnection) (e : PoolConnection)
    (hinit : s.initialized = true)
    (hguard : (now : Int) - (start : Int) < cfg.timeout)
    (hpool : s.pool = l ++ e :: r)
    (hl : ∀ x ∈ l, x.inUse = true)
    (he : e.inUse = false)
    (ht : t.initialized = false) :
    acquire cfg failAt initNow start (now :: rest) s =
      ({ s with pool := l ++ { e with inUse := true, lastUsed := now } :: r },
        Except.ok e.client) ∧
    acquire cfg none initNow start times t =
      acquireLoop cfg.timeout start (initPool cfg none initNow t).1 times := by
  constructor
  · have hfind : s.pool.find? (fun c => !c.inUse) = some e := by
      rw [hpool]
      exact find_first_free e r l hl he
    have hset : setFirstFree now s.pool =
        l ++ { e with inUse := true, lastUsed := now } :: r := by
      rw [hpool]
      exact setFirstFree_append now e r l hl he
    simp [acquire, hinit, acquireLoop, hguard, hfind, hset]
  · have hT := initPool_of_uninit cfg initNow t ht
    simp [acquire, ht, hT]

/-- C2 witness: a two-slot pool with slot 0 busy; `acquire` at time 3 takes
slot 1; and a fresh pool lazily initializes. -/
theorem acquire_firstFit_witness :
    ((⟨[⟨0, true, 0⟩, ⟨1, false, 0⟩], true, 2⟩ : PoolState).initialized = true ∧
      (3 : Int) - (0 : Int) < (100 : Int)) ∧
    acquire ⟨2, 100⟩ none 0 0 [3] ⟨[⟨0, true, 0⟩, ⟨1, false, 0⟩], true, 2⟩ =
      (⟨[⟨0, true, 0⟩, ⟨1, true, 3⟩], true, 2⟩, Except.ok 1) ∧
    acquire ⟨2, 100⟩ none 0 0 [3] initialState =
      acquireLoop 100 0 (initPool ⟨2, 100⟩ none 0 initialState).1 [3] := by
  refine ⟨⟨by decide, by decide⟩, ?_⟩
  have h := acquire_firstFit ⟨2, 100⟩ none 0 0 3 [] [3]
    ⟨[⟨0, true, 0⟩, ⟨1, false, 0⟩], true, 2⟩ initialState
    [⟨0, true, 0⟩] [] ⟨1, false, 0⟩
    (by decide) (by decide) (by decide) (by decide) (by decide) (by decide)
  exact h

/-- C3: `acquire` timeout.  On an initialized pool with every entry checked
out, `acquire` fails with the timeout error carrying the configured timeout
value and leaves the state exactly unchanged; and any `acquire` call that
ends in the timeout error leaves every pre-existing entry in place and
untouched (the original pool is a prefix of the resulting one; they are
equal whenever the pool was already initialized, since then the lazy
initialization appends nothing). -/
theorem acquire_exhausted_spec (cfg : PoolConfig) (failAt : Option Nat)
    (initNow start : Nat) (times : List Nat) (s t : PoolState)
    (hinit : s.initialized = true)
    (hbusy : ∀ c ∈ s.pool, c.inUse = true)
    (herr : (acquire cfg failAt initNow start times t).2 =
      Except.error (DBError.acquireTimeout cfg.timeout)) :
    acquire cfg failAt initNow start times s =
      (s, Except.error (DBError.acquireTimeout cfg.timeout)) ∧
    ((acquire cfg failAt initNow start times t).1.pool).take t.pool.length = t.pool := by
  constructor
  · have h := acquireLoop_busy cfg.timeout start times s hbusy
    simpa [acquire, hinit] using h
  · rw [acquire_error_fst cfg failAt initNow start times t _ herr]
    obtain ⟨m, h1, _⟩ := postInit_pool cfg failAt initNow t
    rw [h1]
    exact List.take_left _ _

/-- C3 witness: with a single busy slot, `acquire` times out at the
configured 100ms, carrying that value and leaving the pool untouched. -/
theorem acquire_exhausted_spec_witness :
    ((⟨[⟨0, true, 0⟩], true, 1⟩ : PoolState).initialized = true ∧
      (acquire ⟨1, 100⟩ none 0 0 [5] ⟨[⟨0, true, 0⟩], true, 1⟩).2 =
        Except.error (DBError.acquireTimeout 100)) ∧
    acquire ⟨1, 100⟩ none 0 0 [5] ⟨[⟨0, true, 0⟩], true, 1⟩ =
      (⟨[⟨0, true, 0⟩], true, 1⟩, Except.error (DBError.acquireTimeout 100)) ∧
    ((acquire ⟨1, 100⟩ none 0 0 [5] ⟨[⟨0, true, 0⟩], true, 1⟩).1.pool).take 1 =
      [⟨0, true, 0⟩] := by
  refine ⟨⟨by decide, by decide⟩, ?_⟩
  have h := acquire_exhausted_spec ⟨1, 100⟩ none 0 0 [5]
    ⟨[⟨0, true, 0⟩], true, 1⟩ ⟨[⟨0, true, 0⟩], true, 1⟩
    (by decide) (by decide) (by decide)
  exact h

/-- C9: with a non-positive configured timeout and a weakly monotone clock,
`acquire` on an initialized pool fails immediately with the timeout error —
even when a free entry exists — because the elapsed-time guard is evaluated
before the first scan. -/
theorem acquire_timeoutZero (cfg : PoolConfig) (failAt : Option Nat)
    (initNow start : Nat) (times : List Nat) (s : PoolState)
    (hinit : s.initialized = true)
    (hto : cfg.timeout ≤ 0)
    (hclock : ∀ n ∈ times, start ≤ n) :
    acquire cfg failAt initNow start times s =
      (s, Except.error (DBError.acquireTimeout cfg.timeout)) := by
  have hloop : acquireLoop cfg.timeout start s times =
      (s, Except.error (DBError.acquireTimeout cfg.timeout)) := by
    cases times with
    | nil => rfl
    | cons now rest =>
      have h1 : start ≤ now := hclock now (by simp)
      have hg : ¬ ((now : Int) - (start : Int) < cfg.timeout) := by
        have h2 : (start : Int) ≤ (now : Int) := by exact_mod_cast h1
        omega
      simp [acquireLoop, hg]
  simpa [acquire, hinit] using hloop

/-- C9 witness: with timeout 0 and a free slot available, `acquire` still
fails at once. -/
theorem acquire_timeoutZero_witness :
    ((⟨[⟨0, false, 0⟩], true, 1⟩ : PoolState).initialized = true ∧
      (0 : Int) ≤ 0 ∧ (∀ n ∈ [0, 1], (0 : Nat) ≤ n)) ∧
    acquire ⟨1, 0⟩ none 0 0 [0, 1] ⟨[⟨0, false, 0⟩], true, 1⟩ =
      (⟨[⟨0, false, 0⟩], true, 1⟩, Except.error (DBError.acquireTimeout 0)) := by
  refine ⟨⟨by decide, by decide, by decide⟩, ?_⟩
  have h := acquire_timeoutZero ⟨1, 0⟩ none 0 0 [0, 1] ⟨[⟨0, false, 0⟩], true, 1⟩
    (by decide) (by decide) (by decide)
  exact h

/-- C4: `withConnection` acquires a connection, invokes `fn` with it, and the
release runs on every exit path of `fn` — the final state is the
post-acquire state with the connection released, both when `fn` returns a
value and when it throws — and the result is `fn`'s value, or `fn`'s error
propagated unchanged, after the release. -/
theorem withConnection_spec {ε α : Type} (cfg : PoolConfig) (failAt : Option Nat)
    (initNow start relNow : Nat) (times : List Nat) (s s1 : PoolState) (c : Nat)
    (fn : Nat → Except ε α)
    (hacq : acquire cfg failAt initNow start times s = (s1, Except.ok c)) :
    withConnection cfg failAt initNow start relNow times fn s =
      (release c relNow s1,
        match fn c with
        | Except.ok v => Except.ok v
        | Except.error e => Except.error (Sum.inr e)) := by
  cases hf : fn c with
  | ok v => simp [withConnection, hacq, hf]
  | error e => simp [withConnection, hacq, hf]

/-- C4 witness: with one free slot, a throwing `fn` still leaves the slot
released afterwards, and its error is propagated. -/
theorem withConnection_spec_witness :
    acquire ⟨1, 100⟩ none 0 0 [0] ⟨[⟨0, false, 0⟩], true, 1⟩ =
      (⟨[⟨0, true, 0⟩], true, 1⟩, Except.ok 0) ∧
    withConnection ⟨1, 100⟩ none 0 0 5 [0]
        (fun _ => (Except.error 7 : Except Nat Nat)) ⟨[⟨0, false, 0⟩], true, 1⟩ =
      (release 0 5 ⟨[⟨0, true, 0⟩], true, 1⟩, Except.error (Sum.inr 7)) := by
  refine ⟨by decide, ?_⟩
  have h := withConnection_spec ⟨1, 100⟩ none 0 0 5 [0]
    ⟨[⟨0, false, 0⟩], true, 1⟩ ⟨[⟨0, true, 0⟩], true, 1⟩ 0
    (fun _ => (Except.error 7 : Except Nat Nat)) (by decide)
  exact h

/-- C5: `initialize` idempotence and failure atomicity.  When `initialized`
is already set, `initialize` is an error-free no-op creating nothing;
otherwise a failure-free run appends exactly `maxSize` entries, all with
`inUse = false`, raises the flag, and succeeds; a failing run leaves the
flag down; and initializing twice yields exactly `maxSize` new entries,
never `2·maxSize`. -/
theorem initialize_spec (cfg : PoolConfig) (failAt : Option Nat)
    (now now2 : Nat) (s t u : PoolState)
    (hs : s.initialized = true)
    (ht : t.initialized = false)
    (hu : (initPool cfg failAt now u).2 = Except.error DBError.initFailed) :
    initPool cfg failAt now s = (s, Except.ok ()) ∧
    (initPool cfg none now t).1.pool =
      t.pool ++ mkEntries now t.nextId cfg.maxSize ∧
    (mkEntries now t.nextId cfg.maxSize).length = cfg.maxSize ∧
    (∀ e ∈ mkEntries now t.nextId cfg.maxSize, e.inUse = false) ∧
    (initPool cfg none now t).1.initialized = true ∧
    (initPool cfg none now t).2 = Except.ok () ∧
    (initPool cfg failAt now u).1.initialized = false ∧
    (initPool cfg none now2 (initPool cfg none now t).1).1.pool.length =
      t.pool.length + cfg.maxSize := by
  have hT := initPool_of_uninit cfg now t ht
  refine ⟨initPool_of_init cfg failAt now s hs, ?_,
    mkEntries_length now cfg.maxSize t.nextId,
    mkEntries_inUse now cfg.maxSize t.nextId, ?_, ?_,
    initPool_error cfg failAt now u _ hu, ?_⟩
  · rw [hT]
  · rw [hT]
  · rw [hT]
  · rw [hT]
    rw [initPool_of_init cfg none now2 _ rfl]
    simp [mkEntries_length]

/-- C5 witness: a one-slot pool — no-op when initialized, one fresh free
entry when not, flag left down on a failing run, and exactly one entry after
initializing twice. -/
theorem initialize_spec_witness :
    ((⟨[⟨0, false, 0⟩], true, 1⟩ : PoolState).initialized = true ∧
      initialState.initialized = false ∧
      (initPool ⟨1, 100⟩ (some 0) 0 initialState).2 =
        Except.error DBError.initFailed) ∧
    initPool ⟨1, 100⟩ (some 0) 0 ⟨[⟨0, false, 0⟩], true, 1⟩ =
      (⟨[⟨0, false, 0⟩], true, 1⟩, Except.ok ()) ∧
    (initPool ⟨1, 100⟩ none 0 initialState).1.pool =
      [] ++ mkEntries 0 0 1 ∧
    (mkEntries 0 0 1).length = 1 ∧
    (∀ e ∈ mkEntries 0 0 1, e.inUse = false) ∧
    (initPool ⟨1, 100⟩ none 0 initialState).1.initialized = true ∧
    (initPool ⟨1, 100⟩ none 0 initialState).2 = Except.ok () ∧
    (initPool ⟨1, 100⟩ (some 0) 0 initialState).1.initialized = false ∧
    (initPool ⟨1, 100⟩ none 5 (initPool ⟨1, 100⟩ none 0 initialState).1).1.pool.length =
      0 + 1 := by
  refine ⟨⟨by decide, by decide, by decide⟩, ?_⟩
  have h := initialize_spec ⟨1, 100⟩ (some 0) 0 5
    ⟨[⟨0, false, 0⟩], true, 1⟩ initialState initialState
    (by decide) (by decide) (by decide)
  exact h

/-- C6: `release` of a tracked connection flips exactly the matching entry
to `inUse = false` and stamps its `lastUsedAt`, touching nothing else;
`release` of an unknown handle is a silent no-op that changes neither the
state nor `stats()` — and, being a total function, it never throws. -/
theorem release_spec (s t : PoolState) (c c' now now' : Nat)
    (l r : List PoolConnection) (e : PoolConnection)
    (hs : s.pool = l ++ e :: r)
    (hl : ∀ x ∈ l, x.client ≠ c)
    (he : e.client = c)
    (hn : ∀ x ∈ t.pool, x.client ≠ c') :
    release c now s =
      { s with pool := l ++ { e with inUse := false, lastUsed := now } :: r } ∧
    release c' now' t = t ∧
    getStats (release c' now' t) = getStats t := by
  have hmiss : release c' now' t = t := by
    show { t with pool := releaseGo c' now' t.pool } = t
    rw [releaseGo_miss c' now' t.pool hn]
  refine ⟨?_, hmiss, by rw [hmiss]⟩
  show { s with pool := releaseGo c now s.pool } = _
  rw [hs, releaseGo_hit c now e r he l hl]

/-- C6 witness: releasing the busy slot 0 frees it; releasing unknown handle
9 changes nothing. -/
theorem release_spec_witness :
    ((⟨[⟨0, true, 0⟩], true, 1⟩ : PoolState).pool = [] ++ ⟨0, true, 0⟩ :: [] ∧
      (∀ x ∈ (⟨[⟨0, true, 0⟩], true, 1⟩ : PoolState).pool, x.client ≠ 9)) ∧
    release 0 7 ⟨[⟨0, true, 0⟩], true, 1⟩ =
      ⟨[] ++ ⟨0, false, 7⟩ :: [], true, 1⟩ ∧
    release 9 7 ⟨[⟨0, true, 0⟩], true, 1⟩ = ⟨[⟨0, true, 0⟩], true, 1⟩ ∧
    getStats (release 9 7 ⟨[⟨0, true, 0⟩], true, 1⟩) =
      getStats ⟨[⟨0, true, 0⟩], true, 1⟩ := by
  refine ⟨⟨by decide, by decide⟩, ?_⟩
  have h := release_spec ⟨[⟨0, true, 0⟩], true, 1⟩ ⟨[⟨0, true, 0⟩], true, 1⟩
    0 9 7 7 [] [] ⟨0, true, 0⟩ (by decide) (by decide) (by decide) (by decide)
  exact h

/-- C8: `getStats` is a pure function of the state returning
`total = entries.length`, `inUse = count of checked-out entries`, and
`available = total - inUse`, so `available + inUse = total` holds after any
sequence of operations. -/
theorem getStats_spec (s : PoolState) :
    (getStats s).available + (getStats s).inUse = (getStats s).total ∧
    (getStats s).total = s.pool.length ∧
    (getStats s).inUse = (s.pool.filter (fun c => c.inUse)).length ∧
    (getStats s).available = (getStats s).total - (getStats s).inUse := by
  have hle : (s.pool.filter (fun c => c.inUse)).length ≤ s.pool.length :=
    List.length_filter_le _ _
  refine ⟨?_, rfl, rfl, rfl⟩
  show s.pool.length - (s.pool.filter (fun c => c.inUse)).length +
      (s.pool.filter (fun c => c.inUse)).length = s.pool.length
  omega

/-- C10: releasing the same handle twice leaves every entry's handle and
`inUse` flag exactly as after the first release (only the matched entry's
timestamp is refreshed), and `stats()` is unchanged. -/
theorem release_idem (s : PoolState) (c n1 n2 : Nat) :
    (release c n2 (release c n1 s)).pool.map (fun e => (e.client, e.inUse)) =
      (release c n1 s).pool.map (fun e => (e.client, e.inUse)) ∧
    getStats (release c n2 (release c n1 s)) = getStats (release c n1 s) := by
  have habs : (release c n2 (release c n1 s)).pool = releaseGo c n2 s.pool := by
    show releaseGo c n2 (releaseGo c n1 s.pool) = _
    exact releaseGo_absorb c n1 n2 s.pool
  constructor
  · rw [habs]
    exact (releaseGo_pair c n1 n2 s.pool).symm
  · have hlen : (release c n2 (release c n1 s)).pool.length =
        (release c n1 s).pool.length := by
      rw [habs]
      show (releaseGo c n2 s.pool).length = (releaseGo c n1 s.pool).length
      rw [releaseGo_length, releaseGo_length]
    have hcnt : ((release c n2 (release c n1 s)).pool.filter
          (fun e => e.inUse)).length =
        ((release c n1 s).pool.filter (fun e => e.inUse)).length := by
      rw [habs]
      exact releaseGo_count c n2 n1 s.pool
    simp [getStats, hlen, hcnt]

/-- C7 counterexample: a two-entry pool where closing entry 0 throws.  The
loop aborts: entry 1's session is in the pool but its `close()` is never
attempted, refuting the claim that `closeAll` attempts all closes even if
some fail; the entries are also not emptied. -/
theorem closeAll_cex :
    (closeAll [0] ⟨[⟨0, false, 0⟩, ⟨1, false, 0⟩], true, 2⟩).2.1 = [0] ∧
    (1 : Nat) ∈ (⟨[⟨0, false, 0⟩, ⟨1, false, 0⟩], true, 2⟩ : PoolState).pool.map
      (fun x => x.client) ∧
    (1 : Nat) ∉ (closeAll [0] ⟨[⟨0, false, 0⟩, ⟨1, false, 0⟩], true, 2⟩).2.1 ∧
    (closeAll [0] ⟨[⟨0, false, 0⟩, ⟨1, false, 0⟩], true, 2⟩).1 =
      ⟨[⟨0, false, 0⟩, ⟨1, false, 0⟩], true, 2⟩ ∧
    (closeAll [0] ⟨[⟨0, false, 0⟩, ⟨1, false, 0⟩], true, 2⟩).2.2 =
      Except.error (DBError.closeFailed 0) := by
  decide

/-- C7 (amended): `closeAll` closes the entries' sessions sequentially in
order; when every close succeeds it attempts all of them, empties the
entries and resets `initialized`, and a repeated `closeAll` is then a safe
no-op; when a close throws, the loop aborts at the first failing entry —
later entries are not attempted — the error wrapping the cause is raised,
and the state is left unchanged. -/
theorem closeAll_spec (failIds : List Nat) (s t : PoolState)
    (l r : List PoolConnection) (e : PoolConnection)
    (hok : ∀ x ∈ s.pool, x.client ∉ failIds)
    (ht : t.pool = l ++ e :: r)
    (hl : ∀ x ∈ l, x.client ∉ failIds)
    (he : e.client ∈ failIds) :
    closeAll failIds s =
      ({ s with pool := [], initialized := false },
        s.pool.map (fun x => x.client), Except.ok ()) ∧
    closeAll failIds ((closeAll failIds s).1) =
      ((closeAll failIds s).1, [], Except.ok ()) ∧
    closeAll failIds t =
      (t, l.map (fun x => x.client) ++ [e.client],
        Except.error (DBError.closeFailed e.client)) := by
  have h1 := closeLoop_ok failIds s.pool hok
  have hfst : closeAll failIds s =
      ({ s with pool := [], initialized := false },
        s.pool.map (fun x => x.client), Except.ok ()) := by
    simp [closeAll, h1]
  refine ⟨hfst, ?_, ?_⟩
  · rw [hfst]
    simp [closeAll, closeLoop]
  · have h3 := closeLoop_fail failIds e r he l hl
    rw [← ht] at h3
    simp [closeAll, h3]

/-- C7 witness: pools with handles 5 and 6 and `close()` of handle 7 set to
fail — a clean close empties everything and is idempotent; a pool whose
second entry is the failing handle aborts there. -/
theorem closeAll_spec_witness :
    ((∀ x ∈ (⟨[⟨5, false, 0⟩, ⟨6, false, 0⟩], true, 7⟩ : PoolState).pool,
        x.client ∉ [7]) ∧
      (⟨[⟨5, false, 0⟩, ⟨7, true, 1⟩], true, 8⟩ : PoolState).pool =
        [⟨5, false, 0⟩] ++ ⟨7, true, 1⟩ :: [] ∧
      (∀ x ∈ [(⟨5, false, 0⟩ : PoolConnection)], x.client ∉ [7]) ∧
      (7 : Nat) ∈ [7]) ∧
    closeAll [7] ⟨[⟨5, false, 0⟩, ⟨6, false, 0⟩], true, 7⟩ =
      (⟨[], false, 7⟩, [5, 6], Except.ok ()) ∧
    closeAll [7] ((closeAll [7] ⟨[⟨5, false, 0⟩, ⟨6, false, 0⟩], true, 7⟩).1) =
      ((closeAll [7] ⟨[⟨5, false, 0⟩, ⟨6, false, 0⟩], true, 7⟩).1, [],
        Except.ok ()) ∧
    closeAll [7] ⟨[⟨5, false, 0⟩, ⟨7, true, 1⟩], true, 8⟩ =
      (⟨[⟨5, false, 0⟩, ⟨7, true, 1⟩], true, 8⟩, [5, 7],
        Except.error (DBError.closeFailed 7)) := by
  refine ⟨⟨by decide, by decide, by decide, by decide⟩, ?_⟩
  have h := closeAll_spec [7]
    ⟨[⟨5, false, 0⟩, ⟨6, false, 0⟩], true, 7⟩
    ⟨[⟨5, false, 0⟩, ⟨7, true, 1⟩], true, 8⟩
    [⟨5, false, 0⟩] [] ⟨7, true, 1⟩
    (by decide) (by decide) (by decide) (by decide)
  exact h

/-- C1 counterexample: with capacity 2, an `initialize` whose second
connection creation throws leaves one abandoned entry in the pool; a later
successful `initialize` appends two more, so the pool is `initialized` with
3 entries instead of 2, and three subsequent acquires drive the checked-out
count to 3 > 2, violating both the fixed-size and the capacity
invariants. -/
theorem pool_invariant_cex :
    (run ⟨2, 100⟩ initialState
        [PoolOp.init (some 1) 0, PoolOp.init none 1]).initialized = true ∧
    (run ⟨2, 100⟩ initialState
        [PoolOp.init (some 1) 0, PoolOp.init none 1]).pool.length = 3 ∧
    ¬ countInUse (run ⟨2, 100⟩ initialState
        [PoolOp.init (some 1) 0, PoolOp.init none 1,
         PoolOp.acq none 0 0 [1], PoolOp.acq none 0 0 [1],
         PoolOp.acq none 0 0 [1]]) ≤ 2 := by
  decide

/-- C1 (amended): for every sequence of interleaved
initialize/acquire/release/closeAll calls in which no connection creation
fails (every initialization oracle is `none`), the pool satisfies: the
checked-out count never exceeds the capacity; once `initialized` is true the
entries list has length exactly `maxSize`; and a connection handed out by
one acquire is never handed out by a later acquire unless a release of it
occurs strictly between them. -/
theorem pool_invariant_exclusive (cfg : PoolConfig) (ops : List PoolOp)
    (hgood : ∀ op ∈ ops, initOk op = true) :
    countInUse (run cfg initialState ops) ≤ cfg.maxSize ∧
    ((run cfg initialState ops).initialized = true →
      (run cfg initialState ops).pool.length = cfg.maxSize) ∧
    (∀ (ops1 ops2 ops3 : List PoolOp) (o1 o2 : PoolOp) (c : Nat),
      ops = ops1 ++ (o1 :: (ops2 ++ (o2 :: ops3))) →
      acqRet cfg (run cfg initialState ops1) o1 = some c →
      acqRet cfg (run cfg initialState (ops1 ++ (o1 :: ops2))) o2 = some c →
      ∃ now, PoolOp.rel c now ∈ ops2) := by
  have hcap : CapInv cfg (run cfg initialState ops) := by
    apply capInv_run cfg ops initialState ?_ hgood
    constructor
    · intro h
      simp [initialState] at h
    · intro _
      rfl
  refine ⟨countInUse_le cfg _ hcap, hcap.1, ?_⟩
  intro ops1 ops2 ops3 o1 o2 c _hsplit ha1 ha2
  by_contra hno
  push_neg at hno
  have hC : ClientsOk (run cfg initialState ops1) := by
    apply clientsOk_run cfg ops1 initialState
    constructor
    · intro e he
      simp [initialState] at he
    · simp [initialState]
  have hNF : NotFree c (step cfg (run cfg initialState ops1) o1) :=
    acqRet_ok_notFree cfg _ o1 c hC ha1
  have hNF2 : NotFree c (run cfg (step cfg (run cfg initialState ops1) o1) ops2) := by
    apply notFree_run cfg c ops2 _ hNF
    intro op hop now heq
    rw [heq] at hop
    exact hno now hop
  have hrw : run cfg initialState (ops1 ++ (o1 :: ops2)) =
      run cfg (step cfg (run cfg initialState ops1) o1) ops2 := by
    rw [run_append, run_cons]
  rw [hrw] at ha2
  exact notFree_no_acqRet cfg _ o2 c hNF2 ha2

/-- C1 witness: capacity 1; an acquire takes the sole connection, a release
frees it, and only then can a second acquire hand the same connection out
again — and the invariants hold at the end of the trace. -/
theorem pool_invariant_exclusive_witness :
    ((∀ op ∈ [PoolOp.acq none 0 0 [0], PoolOp.rel 0 5, PoolOp.acq none 0 10 [10]],
        initOk op = true) ∧
      acqRet ⟨1, 100⟩ (run ⟨1, 100⟩ initialState []) (PoolOp.acq none 0 0 [0]) =
        some 0 ∧
      acqRet ⟨1, 100⟩
          (run ⟨1, 100⟩ initialState ([] ++ (PoolOp.acq none 0 0 [0] :: [PoolOp.rel 0 5])))
          (PoolOp.acq none 0 10 [10]) = some 0) ∧
    countInUse (run ⟨1, 100⟩ initialState
        [PoolOp.acq none 0 0 [0], PoolOp.rel 0 5, PoolOp.acq none 0 10 [10]]) ≤ 1 ∧
    ((run ⟨1, 100⟩ initialState
        [PoolOp.acq none 0 0 [0], PoolOp.rel 0 5, PoolOp.acq none 0 10 [10]]).initialized = true →
      (run ⟨1, 100⟩ initialState
        [PoolOp.acq none 0 0 [0], PoolOp.rel 0 5, PoolOp.acq none 0 10 [10]]).pool.length = 1) ∧
    ∃ now, PoolOp.rel 0 now ∈ [PoolOp.rel 0 5] := by
  have h := pool_invariant_exclusive ⟨1, 100⟩
    [PoolOp.acq none 0 0 [0], PoolOp.rel 0 5, PoolOp.acq none 0 10 [10]]
    (by decide)
  exact ⟨⟨by decide, by decide, by decide⟩, h.1, h.2.1,
    h.2.2 [] [PoolOp.rel 0 5] [] (PoolOp.acq none 0 0 [0])
      (PoolOp.acq none 0 10 [10]) 0 (by decide) (by decide) (by decide)⟩
